import Mathlib

/-!
Verification of the availability-slot computation engine of the
meeting-scheduler server (`server.js`, final revision).

Time is modelled as natural numbers counting seconds since the Unix epoch
(1970-01-01T00:00:00Z); JavaScript `Date` objects hold such an instant and
the server's clock is taken to run at UTC, so `getMinutes`/`getHours`/
`getDay` coincide with their UTC variants.  Calendar dates are modelled by
their civil components (year, month 1-12, day) together with a day-number
function counting days since the epoch; `getUTCDay` of a UTC midnight is
`(dayNumber + 4) % 7` because 1970-01-01 was a Thursday.
-/

namespace MeetingScheduler

/-- `roundDown30` from `server.js`: zero the seconds, then set minutes to 30
if they are ≥ 30 and to 0 otherwise.  `t / 60 * 60` zeroes the seconds and
`t / 3600 * 3600` is the start of the hour. -/
def roundDown30 (t : Nat) : Nat :=
  let z := t / 60 * 60
  let m := z / 60 % 60
  if 30 ≤ m then z / 3600 * 3600 + 30 * 60 else z / 3600 * 3600

/-- `roundUp30` from `server.js`: zero the seconds; if minutes > 30 move to
the next hour at minute 0; else if 0 < minutes (≤ 30) set minutes to 30;
if minutes are already 0 leave the (second-zeroed) time unchanged. -/
def roundUp30 (t : Nat) : Nat :=
  let z := t / 60 * 60
  let m := z / 60 % 60
  if 30 < m then (z / 3600 + 1) * 3600
  else if 0 < m then z / 3600 * 3600 + 30 * 60
  else z

/-- A processed ("normalized") event as used by the slot calculators: every
entry has concrete start/end instants (`start.dateTime` / `end.dateTime` in
the source; `end` is not a legal field name in Lean, so it is called `stop`),
plus the `isSyntheticAllDay` flag set on synthetic all-day blocks. -/
structure NEvent where
  start : Nat
  stop : Nat
  isSyntheticAllDay : Bool
  deriving DecidableEq, Repr

/-- A candidate slot with the two classification flags, as built by the slot
loop in `calculateAdjacentSlots`. -/
structure Slot where
  start : Nat
  stop : Nat
  isOverlapping : Bool
  isAdjacent : Bool
  deriving DecidableEq, Repr

/-- Body of the inner `for (const slot of slots)` loop of
`calculateAdjacentSlots` for one event: skip slots already marked
overlapping; mark overlap when `slot.start < eventEnd && slot.end >
eventStart`; otherwise, for non-all-day blocks, mark adjacency when the slot
touches a rounded event boundary and (defensive double-check in the source)
does not overlap the event. -/
def updateSlot (e : NEvent) (sl : Slot) : Slot :=
  if sl.isOverlapping then sl
  else if sl.start < e.stop ∧ sl.stop > e.start then
    { sl with isOverlapping := true }
  else if e.isSyntheticAllDay then sl
  else if (sl.stop = roundDown30 e.start ∨ sl.start = roundUp30 e.stop) ∧
      ¬(sl.start < e.stop ∧ sl.stop > e.start) then
    { sl with isAdjacent := true }
  else sl

/-- The nested event/slot classification loops of `calculateAdjacentSlots`. -/
def classifySlots (evs : List NEvent) (slots : List Slot) : List Slot :=
  evs.foldl (fun acc e => acc.map (updateSlot e)) slots

/-- The effect of the whole event loop on a single slot (the slot list is
only ever updated pointwise, so the loops commute to this per-slot fold). -/
def applyEvents (evs : List NEvent) (sl : Slot) : Slot :=
  evs.foldl (fun s e => updateSlot e s) sl

/-- Body of the overlap-marking loop of `calculateAllSlots` (no adjacency). -/
def updateSlotOverlap (e : NEvent) (sl : Slot) : Slot :=
  if sl.isOverlapping then sl
  else if sl.start < e.stop ∧ sl.stop > e.start then
    { sl with isOverlapping := true }
  else sl

/-- Per-slot fold for `calculateAllSlots`. -/
def applyEventsOverlap (evs : List NEvent) (sl : Slot) : Slot :=
  evs.foldl (fun s e => updateSlotOverlap e s) sl

/-- The slot-tiling `while` loop shared by `calculateAdjacentSlots` and
`calculateAllSlots`: starting at the business-window start, step in
30-minute (1800-second) increments while `current < endOfBusinessDay`,
emitting a slot only when its end does not exceed the window end. -/
def buildSlots (current stopB : Nat) : List Slot :=
  if current < stopB then
    (if current + 1800 ≤ stopB then
      [Slot.mk current (current + 1800) false false] else [])
      ++ buildSlots (current + 1800) stopB
  else []
  termination_by stopB - current
  decreasing_by omega

/-- `calculateAdjacentSlots` from `server.js`: tile the window, return `[]`
when there are no processed events, otherwise classify every slot against
every event and keep the slots that are not overlapping and are adjacent,
mapped to bare `(start, end)` instant pairs. -/
def calculateAdjacentSlots (evs : List NEvent) (startB stopB : Nat) :
    List (Nat × Nat) :=
  let slots := buildSlots startB stopB
  if evs.length = 0 then []
  else
    ((classifySlots evs slots).filter
        (fun sl => !sl.isOverlapping && sl.isAdjacent)).map
      (fun sl => (sl.start, sl.stop))

/-- `calculateAllSlots` from `server.js`: tile the window, mark overlaps and
return every non-overlapping slot as a `(start, end)` pair (no adjacency
requirement and no empty-event early return). -/
def calculateAllSlots (evs : List NEvent) (startB stopB : Nat) :
    List (Nat × Nat) :=
  let slots := buildSlots startB stopB
  ((evs.foldl (fun acc e => acc.map (updateSlotOverlap e)) slots).filter
      (fun sl => !sl.isOverlapping)).map
    (fun sl => (sl.start, sl.stop))

/-- Does some event of `evs` overlap the interval `[a, b)`? (The overlap
test of the source, quantified over the event list.) -/
def overlapsAny (evs : List NEvent) (a b : Nat) : Bool :=
  evs.any fun e => decide (a < e.stop ∧ b > e.start)

/-- Is the interval `[a, b)` adjacent (in the rounded-boundary sense of the
source) to some non-all-day event of `evs`? -/
def adjacentAny (evs : List NEvent) (a b : Nat) : Bool :=
  evs.any fun e =>
    !e.isSyntheticAllDay &&
      decide (b = roundDown30 e.start ∨ a = roundUp30 e.stop)

/-- Gregorian leap-year rule (as implemented by JavaScript `Date`). -/
def isLeapYear (y : Nat) : Bool :=
  (y % 4 = 0 && y % 100 != 0) || y % 400 = 0

/-- Days in the year strictly before month `m` (1-12). -/
def daysBeforeMonth (y m : Nat) : Nat :=
  let base :=
    match m with
    | 1 => 0 | 2 => 31 | 3 => 59 | 4 => 90 | 5 => 120 | 6 => 151
    | 7 => 181 | 8 => 212 | 9 => 243 | 10 => 273 | 11 => 304 | _ => 334
  if 3 ≤ m ∧ isLeapYear y then base + 1 else base

/-- Number of leap years in `[1, n]`. -/
def leapYearsUpTo (n : Nat) : Nat :=
  n / 4 - n / 100 + n / 400

/-- Day number of the civil date `y-m-d` counted from 1970-01-01 (day 0);
this is `Date.UTC(y, m-1, d) / 86400000` for dates from 1970 on.  There are
477 leap years in `[1, 1969]`. -/
def dayNumber (y m d : Nat) : Nat :=
  365 * (y - 1970) + (leapYearsUpTo (y - 1) - 477) +
    daysBeforeMonth y m + (d - 1)

/-- JavaScript `getUTCDay` of the UTC midnight of day number `dn`
(0 = Sunday; 1970-01-01 was a Thursday, day 4). -/
def getUTCDay (dn : Nat) : Nat :=
  (dn + 4) % 7

/-- Day number of the second Sunday of March computed as in
`isEasternTimeDST`: `March 1 + ((7 - day(March 1)) % 7 + 7)` days. -/
def marchSecondSunday (y : Nat) : Nat :=
  let m1 := dayNumber y 3 1
  m1 + (7 - getUTCDay m1) % 7 + 7

/-- Day number of the first Sunday of November computed as in
`isEasternTimeDST`: `November 1 + ((7 - day(November 1)) % 7)` days. -/
def novemberFirstSunday (y : Nat) : Nat :=
  let n1 := dayNumber y 11 1
  n1 + (7 - getUTCDay n1) % 7

/-- `isEasternTimeDST` from `server.js`: compare noon UTC of the queried
date against the UTC midnights of the two hand-rolled transition days. -/
def isEasternTimeDST (y m d : Nat) : Bool :=
  let noon := dayNumber y m d * 86400 + 12 * 3600
  decide (marchSecondSunday y * 86400 ≤ noon ∧
    noon < novemberFirstSunday y * 86400)

/-- `const utcOffset = isDST ? 4 : 5` in `/api/available-slots`. -/
def utcOffsetFor (y m d : Nat) : Nat :=
  if isEasternTimeDST y m d then 4 else 5

/-- `slotsStart = Date.UTC(year, month, day, 9 + utcOffset)`: the 09:00
Eastern business-window start as a UTC instant. -/
def slotsStartInstant (y m d : Nat) : Nat :=
  dayNumber y m d * 86400 + (9 + utcOffsetFor y m d) * 3600

/-- `slotsEnd = Date.UTC(year, month, day, 17 + utcOffset)`: the 17:00
Eastern business-window end as a UTC instant. -/
def slotsEndInstant (y m d : Nat) : Nat :=
  dayNumber y m d * 86400 + (17 + utcOffsetFor y m d) * 3600

/-- A raw busy event as returned by the calendar provider (after the
cancelled/transparent filter): either all-day with date-only bounds
(start inclusive, end exclusive, given as day numbers) or timed with
concrete instants. -/
inductive RawEvent where
  | allDay (startDate endDate : Nat) : RawEvent
  | timed (start stop : Nat) : RawEvent
  deriving DecidableEq, Repr

/-- The all-day / timed event processing of `/api/available-slots`: an
all-day event covering the selected date becomes one synthetic block
spanning the 9-to-5 window; a timed event is kept (unclipped) when it
overlaps the window at all; everything else is dropped. -/
def processRawEvent (selectedDate slotsStart slotsEnd : Nat) :
    RawEvent → List NEvent
  | RawEvent.allDay sd ed =>
    if sd ≤ selectedDate ∧ selectedDate < ed then
      [NEvent.mk slotsStart slotsEnd true]
    else []
  | RawEvent.timed s t =>
    if s < slotsEnd ∧ t > slotsStart then [NEvent.mk s t false] else []

/-- `processedEvents` accumulation of `/api/available-slots`. -/
def processEvents (selectedDate slotsStart slotsEnd : Nat)
    (evs : List RawEvent) : List NEvent :=
  evs.foldr
    (fun ev acc => processRawEvent selectedDate slotsStart slotsEnd ev ++ acc)
    []

/-- Pure core of `/api/available-slots` for a queried date: weekend dates
return `[]` before any event is inspected; otherwise resolve the DST-aware
9-to-5 Eastern window, normalize the raw events against it and compute the
adjacent slots. -/
def availableSlotsForDate (y m d : Nat) (rawEvents : List RawEvent) :
    List (Nat × Nat) :=
  let dn := dayNumber y m d
  if getUTCDay dn = 0 ∨ getUTCDay dn = 6 then []
  else
    calculateAdjacentSlots
      (processEvents dn (slotsStartInstant y m d) (slotsEndInstant y m d)
        rawEvents)
      (slotsStartInstant y m d) (slotsEndInstant y m d)

/-- Pure core of the per-day body of `/api/month-availability`: weekends
short-circuit to `false`; otherwise the month's timed events are filtered
to the fixed 8AM-5PM ET query range (13:00-22:00 UTC, the endpoint does not
consult `isEasternTimeDST`), slots are tiled over 14:00-22:00 UTC, and the
day is available when at least one adjacent slot exists. -/
def monthAvailabilityForDay (y m d : Nat) (monthEvents : List RawEvent) :
    Bool :=
  let dn := dayNumber y m d
  if getUTCDay dn = 0 ∨ getUTCDay dn = 6 then false
  else
    let queryStart := dn * 86400 + 13 * 3600
    let queryEnd := dn * 86400 + 22 * 3600
    let dayEvents := monthEvents.foldr
      (fun ev acc =>
        match ev with
        | RawEvent.allDay _ _ => acc
        | RawEvent.timed s t =>
          if (queryStart ≤ s ∧ s < queryEnd) ∨
              (t > queryStart ∧ t ≤ queryEnd) ∨
              (s ≤ queryStart ∧ t ≥ queryEnd) then
            NEvent.mk s t false :: acc
          else acc)
      []
    decide (0 <
      (calculateAdjacentSlots dayEvents (dn * 86400 + 14 * 3600)
          (dn * 86400 + 22 * 3600)).length)

/-- Pure core of the validation in `POST /api/book` (`true` = the request
passes validation and the event is inserted): reject weekends (by the UTC
day of the start instant) and reject when `startHourUTC < 14`, when the
start is strictly after 22:00 UTC, or when `endHourUTC` is below 14 or
above 22.  Note the source checks minutes only on the start time. -/
def bookValidation (startTime endTime : Nat) : Bool :=
  let dow := getUTCDay (startTime / 86400)
  if dow = 0 ∨ dow = 6 then false
  else
    let startHourUTC := startTime / 3600 % 24
    let endHourUTC := endTime / 3600 % 24
    let startMinUTC := startTime / 60 % 60
    if startHourUTC < 14 ∨ (startHourUTC = 22 ∧ 0 < startMinUTC) ∨
        22 < startHourUTC ∨ endHourUTC < 14 ∨ 22 < endHourUTC then
      false
    else true

/-! ### Basic lemmas about the per-slot update functions -/

theorem updateSlot_start (e : NEvent) (sl : Slot) :
    (updateSlot e sl).start = sl.start := by
  unfold updateSlot
  repeat' split
  all_goals rfl

theorem updateSlot_stop (e : NEvent) (sl : Slot) :
    (updateSlot e sl).stop = sl.stop := by
  unfold updateSlot
  repeat' split
  all_goals rfl

theorem updateSlot_isOverlapping (e : NEvent) (sl : Slot) :
    (updateSlot e sl).isOverlapping
      = (sl.isOverlapping || decide (sl.start < e.stop ∧ sl.stop > e.start)) := by
  unfold updateSlot
  repeat' split
  all_goals simp_all

theorem updateSlot_isAdjacent_allDay (e : NEvent) (sl : Slot)
    (h : e.isSyntheticAllDay = true) :
    (updateSlot e sl).isAdjacent = sl.isAdjacent := by
  unfold updateSlot
  repeat' split
  all_goals simp_all

theorem updateSlot_isAdjacent_of_not_overlap (e : NEvent) (sl : Slot)
    (h : ¬(sl.start < e.stop ∧ sl.stop > e.start))
    (ho : sl.isOverlapping = false) :
    (updateSlot e sl).isAdjacent
      = (sl.isAdjacent ||
          (!e.isSyntheticAllDay &&
            decide (sl.stop = roundDown30 e.start ∨
              sl.start = roundUp30 e.stop))) := by
  unfold updateSlot
  repeat' split
  all_goals simp_all

theorem applyEvents_nil (sl : Slot) : applyEvents [] sl = sl := rfl

theorem applyEvents_cons (e : NEvent) (evs : List NEvent) (sl : Slot) :
    applyEvents (e :: evs) sl = applyEvents evs (updateSlot e sl) := rfl

theorem applyEvents_start (evs : List NEvent) (sl : Slot) :
    (applyEvents evs sl).start = sl.start := by
  induction evs generalizing sl with
  | nil => rfl
  | cons e evs ih => rw [applyEvents_cons, ih, updateSlot_start]

theorem applyEvents_stop (evs : List NEvent) (sl : Slot) :
    (applyEvents evs sl).stop = sl.stop := by
  induction evs generalizing sl with
  | nil => rfl
  | cons e evs ih => rw [applyEvents_cons, ih, updateSlot_stop]

theorem applyEvents_isOverlapping (evs : List NEvent) (sl : Slot) :
    (applyEvents evs sl).isOverlapping
      = (sl.isOverlapping || overlapsAny evs sl.start sl.stop) := by
  induction evs generalizing sl with
  | nil => simp [overlapsAny, applyEvents_nil]
  | cons e evs ih =>
    rw [applyEvents_cons, ih, updateSlot_isOverlapping, updateSlot_start,
      updateSlot_stop]
    simp [overlapsAny, List.any_cons, Bool.or_assoc]

theorem applyEvents_isAdjacent (evs : List NEvent) : ∀ sl : Slot,
    sl.isOverlapping = false →
    overlapsAny evs sl.start sl.stop = false →
    (applyEvents evs sl).isAdjacent
      = (sl.isAdjacent || adjacentAny evs sl.start sl.stop) := by
  induction evs with
  | nil => intro sl _ _; simp [adjacentAny, applyEvents_nil]
  | cons e evs ih =>
    intro sl ho h
    rw [overlapsAny, List.any_cons, Bool.or_eq_false_iff] at h
    obtain ⟨he, hrest⟩ := h
    have hne : ¬(sl.start < e.stop ∧ sl.stop > e.start) :=
      of_decide_eq_false he
    have ho2 : (updateSlot e sl).isOverlapping = false := by
      rw [updateSlot_isOverlapping, ho, he]; rfl
    have hrest2 :
        overlapsAny evs (updateSlot e sl).start (updateSlot e sl).stop
          = false := by
      rw [updateSlot_start, updateSlot_stop]; exact hrest
    rw [applyEvents_cons, ih (updateSlot e sl) ho2 hrest2,
      updateSlot_start, updateSlot_stop,
      updateSlot_isAdjacent_of_not_overlap e sl hne ho]
    simp [adjacentAny, List.any_cons, Bool.or_assoc]

/-! ### The tiling loop produces an arithmetic progression of slots -/

theorem buildSlots_eq (s e : Nat) :
    buildSlots s e = (List.range ((e - s) / 1800)).map
      (fun i => Slot.mk (s + 1800 * i) (s + 1800 * i + 1800) false false) := by
  suffices H : ∀ n s, e - s ≤ n → buildSlots s e
      = (List.range ((e - s) / 1800)).map
        (fun i => Slot.mk (s + 1800 * i) (s + 1800 * i + 1800) false false) from
    H (e - s) s le_rfl
  intro n
  induction n with
  | zero =>
    intro s hs
    unfold buildSlots
    have h0 : (e - s) / 1800 = 0 := by
      have h1 : e - s = 0 := by omega
      simp [h1]
    rw [if_neg (by omega)]
    simp [h0]
  | succ n ih =>
    intro s hs
    unfold buildSlots
    split
    · next hlt =>
      rw [ih (s + 1800) (by omega)]
      split
      · next hle =>
        have hsub : e - (s + 1800) = e - s - 1800 := by omega
        have hdiv : (e - s) / 1800 = (e - s - 1800) / 1800 + 1 := by
          rw [Nat.div_eq_sub_div (by norm_num) (by omega)]
        rw [hsub, hdiv, List.range_succ_eq_map, List.map_cons, List.map_map]
        simp only [List.singleton_append, Nat.mul_zero, Nat.add_zero]
        refine List.cons_eq_cons.mpr ⟨rfl, ?_⟩
        apply List.map_congr_left
        intro i _
        simp only [Function.comp_apply, Slot.mk.injEq, and_true]
        omega
      · next hnle =>
        have h0 : (e - s) / 1800 = 0 := Nat.div_eq_of_lt (by omega)
        have h1 : (e - (s + 1800)) / 1800 = 0 := Nat.div_eq_of_lt (by omega)
        simp [h0, h1]
    · next hge =>
      have h0 : (e - s) / 1800 = 0 := by
        have h1 : e - s = 0 := by omega
        simp [h1]
      simp [h0]

theorem classifySlots_eq_map (evs : List NEvent) (slots : List Slot) :
    classifySlots evs slots = slots.map (applyEvents evs) := by
  induction evs generalizing slots with
  | nil =>
    have h : slots.map (applyEvents []) = slots.map id :=
      List.map_congr_left (fun sl _ => applyEvents_nil sl)
    simp [classifySlots, h]
  | cons e evs ih =>
    have h1 : classifySlots (e :: evs) slots
        = classifySlots evs (slots.map (updateSlot e)) := rfl
    rw [h1, ih, List.map_map]
    exact List.map_congr_left (fun sl _ => (applyEvents_cons e evs sl).symm)

theorem updateSlotOverlap_start (e : NEvent) (sl : Slot) :
    (updateSlotOverlap e sl).start = sl.start := by
  unfold updateSlotOverlap
  repeat' split
  all_goals rfl

theorem updateSlotOverlap_stop (e : NEvent) (sl : Slot) :
    (updateSlotOverlap e sl).stop = sl.stop := by
  unfold updateSlotOverlap
  repeat' split
  all_goals rfl

theorem updateSlotOverlap_isOverlapping (e : NEvent) (sl : Slot) :
    (updateSlotOverlap e sl).isOverlapping
      = (sl.isOverlapping || decide (sl.start < e.stop ∧ sl.stop > e.start)) := by
  unfold updateSlotOverlap
  repeat' split
  all_goals simp_all

theorem applyEventsOverlap_nil (sl : Slot) : applyEventsOverlap [] sl = sl := rfl

theorem applyEventsOverlap_cons (e : NEvent) (evs : List NEvent) (sl : Slot) :
    applyEventsOverlap (e :: evs) sl
      = applyEventsOverlap evs (updateSlotOverlap e sl) := rfl

theorem applyEventsOverlap_start (evs : List NEvent) (sl : Slot) :
    (applyEventsOverlap evs sl).start = sl.start := by
  induction evs generalizing sl with
  | nil => rfl
  | cons e evs ih => rw [applyEventsOverlap_cons, ih, updateSlotOverlap_start]

theorem applyEventsOverlap_stop (evs : List NEvent) (sl : Slot) :
    (applyEventsOverlap evs sl).stop = sl.stop := by
  induction evs generalizing sl with
  | nil => rfl
  | cons e evs ih => rw [applyEventsOverlap_cons, ih, updateSlotOverlap_stop]

theorem applyEventsOverlap_isOverlapping (evs : List NEvent) (sl : Slot) :
    (applyEventsOverlap evs sl).isOverlapping
      = (sl.isOverlapping || overlapsAny evs sl.start sl.stop) := by
  induction evs generalizing sl with
  | nil => simp [overlapsAny, applyEventsOverlap_nil]
  | cons e evs ih =>
    rw [applyEventsOverlap_cons, ih, updateSlotOverlap_isOverlapping,
      updateSlotOverlap_start, updateSlotOverlap_stop]
    simp [overlapsAny, List.any_cons, Bool.or_assoc]

theorem foldOverlap_eq_map (evs : List NEvent) (slots : List Slot) :
    evs.foldl (fun acc e => acc.map (updateSlotOverlap e)) slots
      = slots.map (applyEventsOverlap evs) := by
  induction evs generalizing slots with
  | nil =>
    have h : slots.map (applyEventsOverlap []) = slots.map id :=
      List.map_congr_left (fun sl _ => applyEventsOverlap_nil sl)
    simp [h]
  | cons e evs ih =>
    have h1 : (e :: evs).foldl (fun acc e => acc.map (updateSlotOverlap e)) slots
        = evs.foldl (fun acc e => acc.map (updateSlotOverlap e))
            (slots.map (updateSlotOverlap e)) := rfl
    rw [h1, ih, List.map_map]
    exact List.map_congr_left
      (fun sl _ => (applyEventsOverlap_cons e evs sl).symm)

/-! ### Membership in the tiling -/

theorem mem_buildSlots_flags {s e : Nat} {sl : Slot} (h : sl ∈ buildSlots s e) :
    sl.isOverlapping = false ∧ sl.isAdjacent = false := by
  rw [buildSlots_eq] at h
  obtain ⟨i, _, rfl⟩ := List.mem_map.mp h
  exact ⟨rfl, rfl⟩

theorem mem_buildSlots_shape {s e : Nat} {sl : Slot} (h : sl ∈ buildSlots s e) :
    ∃ k, k < (e - s) / 1800 ∧ sl.start = s + 1800 * k ∧
      sl.stop = sl.start + 1800 := by
  rw [buildSlots_eq] at h
  obtain ⟨i, hi, rfl⟩ := List.mem_map.mp h
  exact ⟨i, List.mem_range.mp hi, rfl, rfl⟩

/-! ### Filter characterizations of the two slot calculators -/

theorem calculateAdjacentSlots_char (evs : List NEvent) (ws we : Nat) :
    calculateAdjacentSlots evs ws we
      = ((buildSlots ws we).filter
          (fun sl => !overlapsAny evs sl.start sl.stop &&
            adjacentAny evs sl.start sl.stop)).map
        (fun sl => (sl.start, sl.stop)) := by
  unfold calculateAdjacentSlots
  by_cases hlen : evs.length = 0
  · rw [if_pos hlen]
    have hevs : evs = [] := List.length_eq_zero.mp hlen
    subst hevs
    have hf : (buildSlots ws we).filter
        (fun sl => !overlapsAny [] sl.start sl.stop &&
          adjacentAny [] sl.start sl.stop) = [] := by
      apply List.filter_eq_nil_iff.mpr
      intro a _
      simp [overlapsAny, adjacentAny]
    rw [hf]
    rfl
  · rw [if_neg hlen, classifySlots_eq_map, List.filter_map, List.map_map]
    have hpt : ∀ sl ∈ buildSlots ws we,
        ((fun sl => !sl.isOverlapping && sl.isAdjacent) ∘ applyEvents evs) sl
          = (fun sl => !overlapsAny evs sl.start sl.stop &&
              adjacentAny evs sl.start sl.stop) sl := by
      intro sl hsl
      obtain ⟨ho, ha⟩ := mem_buildSlots_flags hsl
      simp only [Function.comp_apply]
      cases h : overlapsAny evs sl.start sl.stop with
      | false =>
        rw [applyEvents_isOverlapping, ho, h,
          applyEvents_isAdjacent evs sl ho h, ha]
        simp
      | true =>
        rw [applyEvents_isOverlapping, ho, h]
        simp
    rw [List.filter_congr hpt]
    apply List.map_congr_left
    intro sl _
    simp only [Function.comp_apply]
    rw [applyEvents_start, applyEvents_stop]

theorem calculateAllSlots_char (evs : List NEvent) (ws we : Nat) :
    calculateAllSlots evs ws we
      = ((buildSlots ws we).filter
          (fun sl => !overlapsAny evs sl.start sl.stop)).map
        (fun sl => (sl.start, sl.stop)) := by
  unfold calculateAllSlots
  dsimp only
  rw [foldOverlap_eq_map, List.filter_map, List.map_map]
  have hpt : ∀ sl ∈ buildSlots ws we,
      ((fun sl => !sl.isOverlapping) ∘ applyEventsOverlap evs) sl
        = (fun sl => !overlapsAny evs sl.start sl.stop) sl := by
    intro sl hsl
    obtain ⟨ho, _⟩ := mem_buildSlots_flags hsl
    simp only [Function.comp_apply]
    rw [applyEventsOverlap_isOverlapping, ho]
    simp
  rw [List.filter_congr hpt]
  apply List.map_congr_left
  intro sl _
  simp only [Function.comp_apply]
  rw [applyEventsOverlap_start, applyEventsOverlap_stop]

/-- `List.any` only depends on the multiset of elements. -/
theorem any_eq_of_perm {α : Type} {l₁ l₂ : List α} (h : l₁.Perm l₂)
    (p : α → Bool) : l₁.any p = l₂.any p := by
  induction h with
  | nil => rfl
  | cons x _ ih => simp [List.any_cons, ih]
  | swap x y l => simp [List.any_cons, Bool.or_left_comm]
  | trans _ _ ih1 ih2 => exact ih1.trans ih2

theorem mem_buildSlots_bounds {s e : Nat} {sl : Slot} (h : sl ∈ buildSlots s e) :
    sl.stop = sl.start + 1800 ∧ (∃ k, sl.start = s + 1800 * k) ∧
      s ≤ sl.start ∧ sl.stop ≤ e := by
  obtain ⟨k, hk, h1, h2⟩ := mem_buildSlots_shape h
  have hmul : 1800 * ((e - s) / 1800) ≤ e - s := by
    have hms := Nat.div_mul_le_self (e - s) 1800
    omega
  refine ⟨h2, ⟨k, h1⟩, by omega, by omega⟩

theorem buildSlots_pairwise (s e : Nat) :
    List.Pairwise (fun a b => a.stop ≤ b.start ∧ a.start < b.start)
      (buildSlots s e) := by
  rw [buildSlots_eq, List.pairwise_map]
  refine List.Pairwise.imp ?_ (List.pairwise_lt_range _)
  intro i j hij
  dsimp only
  exact ⟨by omega, by omega⟩

theorem dayNumber_day (y m d : Nat) :
    dayNumber y m d = dayNumber y m 1 + (d - 1) := by
  unfold dayNumber
  omega

/-! ### Claim theorems -/

/-- C5: the slot tiling starts at `window.startInstant` and emits the
consecutive non-overlapping 30-minute candidates `[start + 1800*i,
start + 1800*i + 1800)`, stopping before any candidate whose end would
exceed `window.endInstant`; for `start < end` the number of candidates is
`floor((end - start) / 1800)`, the trailing remainder being dropped. -/
theorem slot_tiling_count (ws we : Nat) (h : ws < we) :
    buildSlots ws we = (List.range ((we - ws) / 1800)).map
      (fun i => Slot.mk (ws + 1800 * i) (ws + 1800 * i + 1800) false false) ∧
    (buildSlots ws we).length = (we - ws) / 1800 := by
  refine ⟨buildSlots_eq ws we, ?_⟩
  rw [buildSlots_eq]
  simp

theorem slot_tiling_count_witness :
    (0 : Nat) < 3600 ∧ (buildSlots 0 3600).length = (3600 - 0) / 1800 :=
  ⟨by decide, (slot_tiling_count 0 3600 (by decide)).2⟩

/-- C3: `calculateAdjacentSlots` returns exactly the generated slots that
are not overlapping and are adjacent, mapped to `(start, end)` instant
pairs with the internal flags dropped, and for an empty normalized event
list the result is `[]` for every window. -/
theorem computeSlots_filter_and_empty :
    (∀ (evs : List NEvent) (ws we : Nat),
      calculateAdjacentSlots evs ws we
        = ((classifySlots evs (buildSlots ws we)).filter
            (fun sl => !sl.isOverlapping && sl.isAdjacent)).map
          (fun sl => (sl.start, sl.stop))) ∧
    (∀ ws we : Nat, calculateAdjacentSlots [] ws we = []) := by
  constructor
  · intro evs ws we
    by_cases hlen : evs.length = 0
    · have hevs : evs = [] := List.length_eq_zero.mp hlen
      subst hevs
      rw [classifySlots_eq_map]
      have hmap : (buildSlots ws we).map (applyEvents []) = buildSlots ws we := by
        rw [List.map_congr_left (fun sl _ => applyEvents_nil sl)]
        simp
      rw [hmap]
      have hf : (buildSlots ws we).filter
          (fun sl => !sl.isOverlapping && sl.isAdjacent) = [] := by
        apply List.filter_eq_nil_iff.mpr
        intro sl hsl
        obtain ⟨_, ha⟩ := mem_buildSlots_flags hsl
        simp [ha]
      rw [hf]
      rfl
    · unfold calculateAdjacentSlots
      rw [if_neg hlen]
  · intro ws we
    rfl

/-- C2: after classification a slot is marked overlapping exactly when some
event satisfies `slot.start < event.end ∧ slot.end > event.start`
(half-open intersection), and an overlapping slot never appears in the
`calculateAdjacentSlots` result, even if it is adjacent to another event. -/
theorem overlap_classification_and_exclusion (evs : List NEvent)
    (ws we : Nat) (sl : Slot)
    (h : sl ∈ classifySlots evs (buildSlots ws we)) :
    (sl.isOverlapping = true ↔
      ∃ ev ∈ evs, sl.start < ev.stop ∧ sl.stop > ev.start) ∧
    (sl.isOverlapping = true →
      (sl.start, sl.stop) ∉ calculateAdjacentSlots evs ws we) := by
  rw [classifySlots_eq_map] at h
  obtain ⟨sl0, hsl0, rfl⟩ := List.mem_map.mp h
  obtain ⟨ho, _⟩ := mem_buildSlots_flags hsl0
  have hover : (applyEvents evs sl0).isOverlapping
      = overlapsAny evs sl0.start sl0.stop := by
    rw [applyEvents_isOverlapping, ho]
    simp
  constructor
  · rw [hover, applyEvents_start, applyEvents_stop]
    simp [overlapsAny, List.any_eq_true]
  · intro hovt hmem
    have htrue : overlapsAny evs sl0.start sl0.stop = true := by
      rw [hover] at hovt
      exact hovt
    rw [calculateAdjacentSlots_char] at hmem
    obtain ⟨sl1, hsl1, hpair⟩ := List.mem_map.mp hmem
    rw [List.mem_filter] at hsl1
    have hfalse : overlapsAny evs sl1.start sl1.stop = false := by
      have hq := hsl1.2
      rw [Bool.and_eq_true] at hq
      have hq1 := hq.1
      rwa [Bool.not_eq_true'] at hq1
    rw [applyEvents_start, applyEvents_stop, Prod.mk.injEq] at hpair
    rw [hpair.1, hpair.2, htrue] at hfalse
    simp at hfalse

theorem overlap_classification_and_exclusion_witness :
    ((36000 : Nat), (37800 : Nat)) ∉
      calculateAdjacentSlots [NEvent.mk 36000 37800 false] 32400 61200 := by
  refine (overlap_classification_and_exclusion
    [NEvent.mk 36000 37800 false] 32400 61200
    (Slot.mk 36000 37800 true false) ?_).2 rfl
  rw [classifySlots_eq_map, buildSlots_eq]
  decide

/-- C9: `calculateAdjacentSlots` gives the same result on any two event
lists that are permutations of each other — the engine does not depend on
the order of the event list. -/
theorem computeSlots_perm_invariant (evs₁ evs₂ : List NEvent) (ws we : Nat)
    (h : evs₁.Perm evs₂) :
    calculateAdjacentSlots evs₁ ws we = calculateAdjacentSlots evs₂ ws we := by
  rw [calculateAdjacentSlots_char, calculateAdjacentSlots_char]
  have hpt : ∀ sl ∈ buildSlots ws we,
      (!overlapsAny evs₁ sl.start sl.stop &&
        adjacentAny evs₁ sl.start sl.stop)
        = (!overlapsAny evs₂ sl.start sl.stop &&
            adjacentAny evs₂ sl.start sl.stop) := by
    intro sl _
    rw [overlapsAny, overlapsAny, adjacentAny, adjacentAny,
      any_eq_of_perm h, any_eq_of_perm h]
  rw [List.filter_congr hpt]

theorem computeSlots_perm_invariant_witness :
    calculateAdjacentSlots
        [NEvent.mk 36000 37800 false, NEvent.mk 43200 46800 false] 32400 61200
      = calculateAdjacentSlots
          [NEvent.mk 43200 46800 false, NEvent.mk 36000 37800 false]
          32400 61200 :=
  computeSlots_perm_invariant _ _ 32400 61200
    (List.Perm.swap (NEvent.mk 43200 46800 false)
      (NEvent.mk 36000 37800 false) [])

/-- C10: every slot returned by `calculateAdjacentSlots` or
`calculateAllSlots` lasts exactly 30 minutes, starts a whole multiple of
30 minutes after the window start, lies inside the window, and the
returned lists are pairwise disjoint and strictly increasing by start. -/
theorem slot_invariants (evs : List NEvent) (ws we : Nat) :
    (∀ p ∈ calculateAdjacentSlots evs ws we,
      p.2 = p.1 + 1800 ∧ (∃ k, p.1 = ws + 1800 * k) ∧
        ws ≤ p.1 ∧ p.2 ≤ we) ∧
    (∀ p ∈ calculateAllSlots evs ws we,
      p.2 = p.1 + 1800 ∧ (∃ k, p.1 = ws + 1800 * k) ∧
        ws ≤ p.1 ∧ p.2 ≤ we) ∧
    List.Pairwise (fun p q : Nat × Nat => p.2 ≤ q.1 ∧ p.1 < q.1)
      (calculateAdjacentSlots evs ws we) ∧
    List.Pairwise (fun p q : Nat × Nat => p.2 ≤ q.1 ∧ p.1 < q.1)
      (calculateAllSlots evs ws we) := by
  refine ⟨?_, ?_, ?_, ?_⟩
  · intro p hp
    rw [calculateAdjacentSlots_char] at hp
    obtain ⟨sl1, hsl1, rfl⟩ := List.mem_map.mp hp
    exact mem_buildSlots_bounds (List.mem_filter.mp hsl1).1
  · intro p hp
    rw [calculateAllSlots_char] at hp
    obtain ⟨sl1, hsl1, rfl⟩ := List.mem_map.mp hp
    exact mem_buildSlots_bounds (List.mem_filter.mp hsl1).1
  · rw [calculateAdjacentSlots_char, List.pairwise_map]
    exact List.Pairwise.sublist (List.filter_sublist _)
      (buildSlots_pairwise ws we)
  · rw [calculateAllSlots_char, List.pairwise_map]
    exact List.Pairwise.sublist (List.filter_sublist _)
      (buildSlots_pairwise ws we)

theorem slot_invariants_witness :
    (3600 : Nat) = 1800 + 1800 ∧ (∃ k, (1800 : Nat) = 0 + 1800 * k) ∧
      (0 : Nat) ≤ 1800 ∧ (3600 : Nat) ≤ 7200 := by
  refine (slot_invariants [NEvent.mk 0 1800 false] 0 7200).1 (1800, 3600) ?_
  rw [calculateAdjacentSlots_char, buildSlots_eq]
  decide

/-- C1 counterexample: for the timed event 10:00:00-10:30:30 and the
candidate slot 10:30-11:00 (of a 09:00-17:00 window, all on an arbitrary
day at UTC offsets 36000/37830/37800/39600 seconds), the slot's start
equals the event's end rounded up to the 30-minute grid, yet the engine
classifies the slot as overlapping, not adjacent, and drops it — so
"adjacent exactly when a rounded boundary matches" is false as stated. -/
theorem roundedBoundary_not_sufficient_for_adjacent :
    Slot.mk 37800 39600 true false ∈
      classifySlots [NEvent.mk 36000 37830 false] (buildSlots 32400 61200) ∧
    (37800 : Nat) = roundUp30 37830 ∧
    (Slot.mk 37800 39600 true false).isAdjacent = false ∧
    ((37800 : Nat), (39600 : Nat)) ∉
      calculateAdjacentSlots [NEvent.mk 36000 37830 false] 32400 61200 := by
  refine ⟨?_, by decide, rfl, ?_⟩
  · rw [classifySlots_eq_map, buildSlots_eq]
    decide
  · rw [calculateAdjacentSlots_char, buildSlots_eq]
    decide

/-- C1 (amended): processing a non-synthetic timed event marks a
not-yet-classified slot adjacent exactly when the slot's end equals the
event's start rounded down, or the slot's start equals the event's end
rounded up, AND the slot does not overlap the event under the half-open
intersection test. -/
theorem adjacent_iff_boundary_and_no_overlap (e : NEvent) (sl : Slot)
    (hall : e.isSyntheticAllDay = false)
    (ho : sl.isOverlapping = false) (ha : sl.isAdjacent = false) :
    ((updateSlot e sl).isAdjacent = true ↔
      ((sl.stop = roundDown30 e.start ∨ sl.start = roundUp30 e.stop) ∧
        ¬(sl.start < e.stop ∧ sl.stop > e.start))) := by
  unfold updateSlot
  repeat' split
  all_goals simp_all

theorem adjacent_iff_boundary_and_no_overlap_witness :
    (updateSlot (NEvent.mk 36000 37800 false)
        (Slot.mk 37800 39600 false false)).isAdjacent = true :=
  (adjacent_iff_boundary_and_no_overlap (NEvent.mk 36000 37800 false)
      (Slot.mk 37800 39600 false false) rfl rfl rfl).mpr (by decide)

/-- C4: an all-day event covering the target date normalizes to exactly one
synthetic full-window block; a full-window synthetic block makes every
tiled slot overlapping, so `calculateAllSlots` returns `[]`; a synthetic
block never marks any slot adjacent; an all-day event not covering the
target date contributes nothing. -/
theorem allDay_normalization_and_blocking :
    (∀ sd ed selDate ws we : Nat, sd ≤ selDate → selDate < ed →
      processRawEvent selDate ws we (RawEvent.allDay sd ed)
        = [NEvent.mk ws we true]) ∧
    (∀ sd ed selDate ws we : Nat, ¬(sd ≤ selDate ∧ selDate < ed) →
      processRawEvent selDate ws we (RawEvent.allDay sd ed) = []) ∧
    (∀ (evs : List NEvent) (ws we : Nat), NEvent.mk ws we true ∈ evs →
      (∀ sl ∈ buildSlots ws we, overlapsAny evs sl.start sl.stop = true) ∧
      calculateAllSlots evs ws we = []) ∧
    (∀ (e : NEvent) (sl : Slot), e.isSyntheticAllDay = true →
      (updateSlot e sl).isAdjacent = sl.isAdjacent) := by
  refine ⟨?_, ?_, ?_, ?_⟩
  · intro sd ed selDate ws we h1 h2
    simp [processRawEvent, h1, h2]
  · intro sd ed selDate ws we h
    simp only [processRawEvent]
    rw [if_neg h]
  · intro evs ws we hmem
    have hov : ∀ sl ∈ buildSlots ws we,
        overlapsAny evs sl.start sl.stop = true := by
      intro sl hsl
      obtain ⟨hstop, _, hge, hle⟩ := mem_buildSlots_bounds hsl
      rw [overlapsAny, List.any_eq_true]
      refine ⟨NEvent.mk ws we true, hmem, decide_eq_true ?_⟩
      constructor
      · show sl.start < we
        omega
      · show sl.stop > ws
        omega
    refine ⟨hov, ?_⟩
    rw [calculateAllSlots_char]
    have hf : (buildSlots ws we).filter
        (fun sl => !overlapsAny evs sl.start sl.stop) = [] := by
      apply List.filter_eq_nil_iff.mpr
      intro sl hsl
      rw [hov sl hsl]
      simp
    rw [hf]
    rfl
  · intro e sl h
    exact updateSlot_isAdjacent_allDay e sl h

theorem allDay_normalization_and_blocking_witness :
    processRawEvent 20270 32400 61200 (RawEvent.allDay 20269 20271)
      = [NEvent.mk 32400 61200 true] ∧
    processRawEvent 20270 32400 61200 (RawEvent.allDay 20271 20272) = [] ∧
    calculateAllSlots [NEvent.mk 32400 61200 true] 32400 61200 = [] ∧
    (updateSlot (NEvent.mk 32400 61200 true)
        (Slot.mk 32400 34200 false false)).isAdjacent = false :=
  ⟨allDay_normalization_and_blocking.1 20269 20271 20270 32400 61200
      (by decide) (by decide),
   allDay_normalization_and_blocking.2.1 20271 20272 20270 32400 61200
      (by decide),
   (allDay_normalization_and_blocking.2.2.1 [NEvent.mk 32400 61200 true]
      32400 61200 (by decide)).2,
   allDay_normalization_and_blocking.2.2.2 (NEvent.mk 32400 61200 true)
      (Slot.mk 32400 34200 false false) rfl⟩

/-- C6: the resolver classifies a date as daylight-saving exactly when it
lies on or after the second Sunday of March (the unique Sunday with day of
month 8-14) and strictly before the first Sunday of November (the unique
Sunday with day of month 1-7) of its year, and resolves the 09:00/17:00
Eastern window bounds at UTC offset -4 under DST and -5 otherwise, i.e.
13:00/21:00 UTC under DST and 14:00/22:00 UTC otherwise. -/
theorem dst_window_resolution (y m d : Nat) (hy : 1970 ≤ y)
    (hm : 1 ≤ m ∧ m ≤ 12) (hd : 1 ≤ d ∧ d ≤ 31) :
    (isEasternTimeDST y m d = true ↔
      ∃ a b : Nat, 8 ≤ a ∧ a ≤ 14 ∧ getUTCDay (dayNumber y 3 a) = 0 ∧
        1 ≤ b ∧ b ≤ 7 ∧ getUTCDay (dayNumber y 11 b) = 0 ∧
        dayNumber y 3 a ≤ dayNumber y m d ∧
        dayNumber y m d < dayNumber y 11 b) ∧
    slotsStartInstant y m d = dayNumber y m d * 86400 +
      (if isEasternTimeDST y m d then 13 else 14) * 3600 ∧
    slotsEndInstant y m d = dayNumber y m d * 86400 +
      (if isEasternTimeDST y m d then 21 else 22) * 3600 := by
  refine ⟨?_, ?_, ?_⟩
  · constructor
    · intro h
      simp only [isEasternTimeDST, decide_eq_true_eq] at h
      obtain ⟨h1, h2⟩ := h
      simp only [marchSecondSunday, novemberFirstSunday, getUTCDay] at h1 h2
      refine ⟨(7 - (dayNumber y 3 1 + 4) % 7) % 7 + 8,
              (7 - (dayNumber y 11 1 + 4) % 7) % 7 + 1,
              by omega, by omega, ?_, by omega, by omega, ?_, ?_, ?_⟩
      · rw [dayNumber_day y 3]
        simp only [getUTCDay]
        omega
      · rw [dayNumber_day y 11]
        simp only [getUTCDay]
        omega
      · rw [dayNumber_day y 3]
        omega
      · rw [dayNumber_day y 11]
        omega
    · rintro ⟨a, b, ha8, ha14, hasun, hb1, hb7, hbsun, hle, hlt⟩
      rw [dayNumber_day y 3 a] at hasun hle
      rw [dayNumber_day y 11 b] at hbsun hlt
      simp only [getUTCDay] at hasun hbsun
      simp only [isEasternTimeDST, marchSecondSunday, novemberFirstSunday,
        getUTCDay, decide_eq_true_eq]
      constructor
      · omega
      · omega
  · simp only [slotsStartInstant, utcOffsetFor]
    cases hdst : isEasternTimeDST y m d <;> simp
  · simp only [slotsEndInstant, utcOffsetFor]
    cases hdst : isEasternTimeDST y m d <;> simp

theorem dst_window_resolution_witness :
    slotsStartInstant 2025 7 1 = dayNumber 2025 7 1 * 86400 +
      (if isEasternTimeDST 2025 7 1 then 13 else 14) * 3600 ∧
    slotsEndInstant 2025 7 1 = dayNumber 2025 7 1 * 86400 +
      (if isEasternTimeDST 2025 7 1 then 21 else 22) * 3600 :=
  ⟨(dst_window_resolution 2025 7 1 (by decide) ⟨by decide, by decide⟩
      ⟨by decide, by decide⟩).2.1,
   (dst_window_resolution 2025 7 1 (by decide) ⟨by decide, by decide⟩
      ⟨by decide, by decide⟩).2.2⟩

/-- C7: a requested date whose weekday is Saturday or Sunday makes the day
endpoint return the empty slot list and the month endpoint mark the day
`false`, both uniformly in (hence without inspecting) the event lists. -/
theorem weekend_short_circuit (y m d : Nat)
    (h : getUTCDay (dayNumber y m d) = 0 ∨ getUTCDay (dayNumber y m d) = 6) :
    (∀ rawEvents : List RawEvent,
      availableSlotsForDate y m d rawEvents = []) ∧
    (∀ monthEvents : List RawEvent,
      monthAvailabilityForDay y m d monthEvents = false) := by
  constructor
  · intro evs
    unfold availableSlotsForDate
    dsimp only
    rw [if_pos h]
  · intro mevs
    unfold monthAvailabilityForDay
    dsimp only
    rw [if_pos h]

theorem weekend_short_circuit_witness :
    availableSlotsForDate 2025 7 5
        [RawEvent.timed 1751374800 1751378400] = [] ∧
    monthAvailabilityForDay 2025 7 5
        [RawEvent.timed 1751374800 1751378400] = false :=
  ⟨(weekend_short_circuit 2025 7 5 (by decide)).1 _,
   (weekend_short_circuit 2025 7 5 (by decide)).2 _⟩

/-- C8 (code-bug evidence): the booking 2025-01-08 14:00:00Z to
2025-01-08 22:30:00Z starts exactly at the 09:00 Eastern window start of
that (standard-time, mid-week) date but ends 30 minutes after the 17:00
Eastern window end, yet `bookValidation` accepts it — the end-time check
compares only the UTC hour (`endHourUTC < 14 || endHourUTC > 22`) and
never the end minutes, contradicting the endpoint's stated 9AM-5PM
Eastern constraint. -/
theorem book_validation_accepts_after_hours_end :
    bookValidation 1736344800 1736375400 = true ∧
    getUTCDay (1736344800 / 86400) = 3 ∧
    isEasternTimeDST 2025 1 8 = false ∧
    slotsStartInstant 2025 1 8 = 1736344800 ∧
    slotsEndInstant 2025 1 8 = 1736373600 ∧
    (1736373600 : Nat) < 1736375400 := by
  refine ⟨?_, ?_, ?_, ?_, ?_, ?_⟩ <;> decide

end MeetingScheduler
